import Mathlib

/-!
Verification of the Calendar-Agent natural-language command interpreter.

Shallow embedding of `src/nlp_parser.py` (class `CalendarNLPParser`) and
`src/deepseek_parser.py` (class `DeepSeekCalendarParser`).

Modelling conventions:
* Text is `List Char` (Python `str` is a sequence of code points).
* Python `re` is embedded by a small backtracking regular-expression engine
  (`RE`, `matchRE`) with Python semantics: leftmost match, greedy
  quantifiers, left-biased alternation, capture groups; `re.findall`,
  `re.search` and `re.sub` are built on top of it.  All `re` calls in
  `nlp_parser.py` pass `re.IGNORECASE`, so literal matching is
  case-insensitive (ASCII case folding; the repository's patterns only use
  ASCII letters and Chinese characters, which have no case).
* Naive `datetime` objects are the record `PyDateTime`; `timedelta`
  addition (`hours=1`, `days=1`, `weeks=1`) is genuine calendar arithmetic
  with carry (`addHours`, `addDays`).
* `dateutil.parser.parse(s, default=base)` is modelled for exactly the
  string shapes reachable from the call sites (`H`, `H:MM`, optionally
  followed by spaces and `am`/`pm`): parsed fields replace the
  corresponding fields of `default`, unparsed fields are kept; a lone 1-2
  digit number is interpreted as a day-of-month; invalid values raise
  (here: `none`).
* Python floats are modelled as `ℚ` (the only float arithmetic is one
  division used for `confidence`).
* Fallible code returns `Option`; a caught exception is a `none` that the
  caller turns into the documented fallback value.
-/

/-! ## Generic character/list helpers -/

/-- Python whitespace for `\s` and `str.strip` (ASCII part). -/
def pyWs (c : Char) : Bool :=
  c = ' ' || c = '\t' || c = '\n' || c = '\x0d' || c = '\x0b' || c = '\x0c'

/-- Lower-case a character sequence (Python `str.lower`, ASCII letters;
Chinese characters are unaffected). -/
def lowerChars (s : List Char) : List Char := s.map Char.toLower

/-- Remove trailing whitespace. -/
def dropTrailWs (s : List Char) : List Char := (s.reverse.dropWhile pyWs).reverse

/-- Python `str.strip()`. -/
def pyStrip (s : List Char) : List Char := dropTrailWs (s.dropWhile pyWs)

/-- Case-insensitive literal match of `w` (given lower-case) against a
prefix of `s`; returns the residual input on success. -/
def litMatch : List Char → List Char → Option (List Char)
  | [], s => some s
  | _ :: _, [] => none
  | a :: w, c :: s => if c.toLower = a.toLower then litMatch w s else none

/-- Python substring containment `needle in hay`. -/
def subOccurs (needle : List Char) : List Char → Bool
  | [] => (litMatch needle []).isSome
  | c :: t => (litMatch needle (c :: t)).isSome || subOccurs needle t

theorem litMatch_length {w s r : List Char} (h : litMatch w s = some r) :
    r.length + w.length = s.length := by
  induction w generalizing s r with
  | nil => simp [litMatch] at h; simp [h]
  | cons a w ih =>
    cases s with
    | nil => simp [litMatch] at h
    | cons c t =>
      simp only [litMatch] at h
      split at h
      · have := ih h
        simp only [List.length_cons]
        omega
      · exact absurd h (by simp)

/-- Python `str.replace(needle, '')` for a non-empty needle (all call sites
guard against the empty string via truthiness). -/
def eraseOccurs (needle : List Char) : List Char → List Char
  | [] => []
  | c :: t =>
    if _hne : needle = [] then c :: t
    else
      match _hm : litMatch needle (c :: t) with
      | some rest => eraseOccurs needle rest
      | none => c :: eraseOccurs needle t
termination_by s => s.length
decreasing_by
  · have := litMatch_length _hm
    cases needle with
    | nil => exact absurd rfl _hne
    | cons x xs => simp only [List.length_cons] at *; omega
  · simp

/-! ## A backtracking regular-expression engine (model of Python `re`)

Only the constructs used by the repository's patterns are supported:
literals, character classes, concatenation, alternation `|`, option `?`,
class repetition `\s*` / `\s+` / `[^.,!?]+`, and numbered capture groups.
`matchRE` returns the list of all matches anchored at the start of the
input, as pairs (consumed length, captured groups), in Python's
backtracking priority order (greedy quantifiers, left-biased alternation);
the head of the list is the match Python's engine picks. -/

inductive RE where
  | eps : RE
  | lit : List Char → RE
  | cls : (Char → Bool) → RE
  | seq : RE → RE → RE
  | alt : RE → RE → RE
  | opt : RE → RE
  | starCls : (Char → Bool) → RE
  | plusCls : (Char → Bool) → RE
  | grp : Nat → RE → RE

/-- Length of the longest prefix of `s` whose characters satisfy `p`. -/
def leadCount (p : Char → Bool) (s : List Char) : Nat := (s.takeWhile p).length

/-- Anchored matches of `r` against `s`: (consumed length, captures),
in backtracking priority order. -/
def matchRE : RE → List Char → List (Nat × List (Nat × List Char))
  | .eps, _ => [(0, [])]
  | .lit w, s =>
    match litMatch w s with
    | some r => [(s.length - r.length, [])]
    | none => []
  | .cls _, [] => []
  | .cls p, c :: _ => if p c then [(1, [])] else []
  | .seq a b, s =>
    (matchRE a s).flatMap fun x =>
      (matchRE b (s.drop x.1)).map fun y => (x.1 + y.1, x.2 ++ y.2)
  | .alt a b, s => matchRE a s ++ matchRE b s
  | .opt a, s => matchRE a s ++ [(0, [])]
  | .starCls p, s =>
    ((List.range (leadCount p s + 1)).reverse).map fun n => (n, [])
  | .plusCls p, s =>
    ((List.range (leadCount p s)).reverse).map fun n => (n + 1, [])
  | .grp i a, s => (matchRE a s).map fun x => (x.1, (i, s.take x.1) :: x.2)

/-- Python `re.search(pat, s)` as a Boolean (does any position match?). -/
def reSearch (r : RE) : List Char → Bool
  | [] => !(matchRE r []).isEmpty
  | c :: t => !(matchRE r (c :: t)).isEmpty || reSearch r t

/-- Python `re.search(pat, s)` returning the first match's captures. -/
def searchCaps (r : RE) : List Char → Option (Nat × List (Nat × List Char))
  | [] => (matchRE r []).head?
  | c :: t =>
    match (matchRE r (c :: t)).head? with
    | some m => some m
    | none => searchCaps r t

/-- Captured text of group `i` (empty when the group did not participate,
as in Python `findall`). -/
def capStr (caps : List (Nat × List Char)) (i : Nat) : List Char :=
  match caps.find? (fun x => x.1 = i) with
  | some x => x.2
  | none => []

/-- Worker for `reFindall`/`reSub`: scan left to right, taking the engine's
first match at each position; a non-empty match advances past its end, an
empty match (impossible for the repository's patterns) or a failure
advances one character, as CPython does. -/
def findAux (r : RE) : Nat → List Char → List (List (Nat × List Char))
  | 0, _ => []
  | fuel + 1, s =>
    match (matchRE r s).head? with
    | some x =>
      if x.1 = 0 then
        x.2 :: (match s with | [] => [] | _ :: t => findAux r fuel t)
      else x.2 :: findAux r fuel (s.drop x.1)
    | none => match s with | [] => [] | _ :: t => findAux r fuel t

/-- Python `re.findall(pat, s)`: the capture lists of all non-overlapping
matches, left to right. -/
def reFindall (r : RE) (s : List Char) : List (List (Nat × List Char)) :=
  findAux r (s.length + 1) s

/-- Worker for `reSub`. -/
def subAux (r : RE) : Nat → List Char → List Char
  | 0, s => s
  | fuel + 1, s =>
    match (matchRE r s).head? with
    | some x =>
      if x.1 = 0 then
        match s with | [] => [] | c :: t => c :: subAux r fuel t
      else subAux r fuel (s.drop x.1)
    | none => match s with | [] => [] | c :: t => c :: subAux r fuel t

/-- Python `re.sub(pat, '', s)`: delete all non-overlapping matches. -/
def reSub (r : RE) (s : List Char) : List Char := subAux r (s.length + 1) s

/-- Tuple view of one `findall` match for a pattern with `n` capture
groups: Python returns `group(1), …, group(n)` (with `''` for groups that
did not participate). -/
def matchGroups (n : Nat) (caps : List (Nat × List Char)) : List (List Char) :=
  (List.range n).map fun i => capStr caps (i + 1)

/-! ### Pattern-building helpers -/

/-- Alternation `a|b|…` (left-biased, like Python). -/
def reAlts : List RE → RE
  | [] => .eps
  | [r] => r
  | r :: rs => .alt r (reAlts rs)

/-- Concatenation. -/
def reCat : List RE → RE
  | [] => .eps
  | [r] => r
  | r :: rs => .seq r (reCat rs)

/-- A literal from a string. -/
def strLit (s : String) : RE := .lit s.data

/-- `\s*` -/
def wsS : RE := .starCls pyWs

/-- `\s+` -/
def wsP : RE := .plusCls pyWs

/-- `\d{1,2}` -/
def d12 : RE := .seq (.cls Char.isDigit) (.opt (.cls Char.isDigit))

/-- `\d{2}` -/
def d2 : RE := .seq (.cls Char.isDigit) (.cls Char.isDigit)

/-! ## Naive datetime model (Python `datetime` / `timedelta`) -/

/-- A timezone-naive `datetime.datetime`. -/
structure PyDateTime where
  year : Nat
  month : Nat
  day : Nat
  hour : Nat
  minute : Nat
  second : Nat
  micro : Nat
deriving DecidableEq, Repr

/-- Gregorian leap year. -/
def isLeap (y : Nat) : Bool := y % 4 = 0 && (y % 100 ≠ 0 || y % 400 = 0)

/-- Days in a month. -/
def daysInMonth (y m : Nat) : Nat :=
  if m = 2 then (if isLeap y then 29 else 28)
  else if m = 4 || m = 6 || m = 9 || m = 11 then 30
  else 31

/-- Advance one calendar day (month/year carry). -/
def addOneDay (d : PyDateTime) : PyDateTime :=
  if d.day < daysInMonth d.year d.month then { d with day := d.day + 1 }
  else if d.month < 12 then { d with month := d.month + 1, day := 1 }
  else { d with year := d.year + 1, month := 1, day := 1 }

/-- `d + timedelta(days=n)` for `n ≥ 0`. -/
def addDays : PyDateTime → Nat → PyDateTime
  | d, 0 => d
  | d, n + 1 => addDays (addOneDay d) n

/-- `d + timedelta(hours=n)` for `n ≥ 0`: duration addition, carrying past
hour 23 into the following day(s). -/
def addHours (d : PyDateTime) (n : Nat) : PyDateTime :=
  { addDays d ((d.hour + n) / 24) with hour := (d.hour + n) % 24 }

/-- Numeric value of a decimal digit string. -/
def digitsVal (s : List Char) : Nat :=
  s.foldl (fun a c => a * 10 + (c.toNat - '0'.toNat)) 0

/-! ## Model of `dateutil.parser.parse(time_str, default=base_date)`

The call sites in `_extract_time_info` only ever pass strings drawn from
the capture groups `\d{1,2}(?::\d{2})?\s*(?:am|pm)?` and `\d{1,2}`, i.e.
one or two digits, optionally a colon and two digits, optionally
whitespace and an `am`/`pm` marker, possibly with trailing whitespace.
`dateutil` fills every field it parses into a copy of `default` and keeps
the remaining fields:
* a lone 1–2 digit number is a day-of-month (invalid day ⇒ error);
* `H:MM` sets hour/minute (invalid ⇒ error);
* a trailing `am`/`pm` makes the leading number a 12-hour-clock hour
  (`pm` adds 12 to hours below 12, `12am` is 0; an hour above 12 with a
  meridian ⇒ error).
Any other shape is rejected (`none` models the raised `ParserError`,
which `_parse_time_string` catches). -/

def dateutilParse (s : List Char) (base : PyDateTime) : Option PyDateTime :=
  let t := pyStrip s
  let ds := t.takeWhile Char.isDigit
  let r1 := t.dropWhile Char.isDigit
  if ds.length = 0 || ds.length > 2 then none
  else
    let h := digitsVal ds
    let withColon := r1.head? = some ':'
    let mmPart := if withColon then (r1.drop 1).takeWhile Char.isDigit else []
    let r2 := if withColon then (r1.drop 1).dropWhile Char.isDigit else r1
    if withColon && (mmPart.length = 0 || mmPart.length > 2) then none
    else
      let m := digitsVal mmPart
      let r3 := r2.dropWhile pyWs
      let newMin := if withColon then m else base.minute
      match litMatch ['a', 'm'] r3, litMatch ['p', 'm'] r3 with
      | some rest, _ =>
        if rest.dropWhile pyWs ≠ [] then none
        else if h > 12 then none
        else
          let h24 := if h = 12 then 0 else h
          some { base with hour := h24, minute := newMin }
      | none, some rest =>
        if rest.dropWhile pyWs ≠ [] then none
        else if h > 12 then none
        else
          let h24 := if h < 12 then h + 12 else 12
          some { base with hour := h24, minute := newMin }
      | none, none =>
        if r3 ≠ [] then none
        else if withColon then
          if h ≤ 23 && m ≤ 59 then some { base with hour := h, minute := m }
          else none
        else
          if 1 ≤ h && h ≤ daysInMonth base.year base.month then
            some { base with day := h }
          else none

/-! ## `src/nlp_parser.py`: `CalendarNLPParser`

The twelve intent patterns of `self.intent_patterns` (lines 9–30), in the
dictionary's insertion order. -/

def createPat1 : RE := reCat [reAlts [strLit "create", strLit "add", strLit "schedule", strLit "make", strLit "book"], wsP, .opt (reCat [strLit "a", wsP]), reAlts [strLit "meeting", strLit "event", strLit "appointment"]]

def createPat2 : RE := reCat [reAlts [strLit "安排", strLit "创建", strLit "添加", strLit "预定", strLit "新建"], wsS, .opt (reAlts [strLit "会议", strLit "事件", strLit "日程", strLit "约会"])]

def createPat3 : RE := reCat [reAlts [reCat [strLit "set", wsP, strLit "up"], strLit "plan"], wsP, .opt (reCat [strLit "a", wsP]), reAlts [strLit "meeting", strLit "event"]]

def readPat1 : RE := reCat [reAlts [strLit "show", strLit "list", strLit "display", strLit "view", strLit "check", reCat [strLit "what", wsP, strLit "is"]], wsP, .opt (reCat [strLit "my", wsP]), reAlts [strLit "schedule", strLit "calendar", strLit "events", strLit "meetings"]]

def readPat2 : RE := reCat [reAlts [strLit "查看", strLit "显示", strLit "列出", strLit "检查", strLit "看看"], wsS, .opt (reAlts [strLit "日程", strLit "日历", strLit "事件", strLit "会议", strLit "安排"])]

def readPat3 : RE := reAlts [reCat [strLit "when", wsP, strLit "is"], reCat [strLit "when", wsP, strLit "do", wsP, strLit "i", wsP, strLit "have"]]

def updatePat1 : RE := reCat [reAlts [strLit "update", strLit "change", strLit "modify", strLit "reschedule", strLit "move"], wsP, .opt (reCat [strLit "a", wsP]), reAlts [strLit "meeting", strLit "event", strLit "appointment"]]

def updatePat2 : RE := reCat [reAlts [strLit "更新", strLit "修改", strLit "改变", strLit "调整", strLit "重新安排"], wsS, .opt (reAlts [strLit "会议", strLit "事件", strLit "日程"])]

def updatePat3 : RE := reCat [reAlts [strLit "edit", strLit "alter"], wsP, .opt (reCat [strLit "the", wsP]), reAlts [strLit "event", strLit "meeting"]]

def deletePat1 : RE := reCat [reAlts [strLit "delete", strLit "remove", strLit "cancel", strLit "clear"], wsP, .opt (reCat [strLit "a", wsP]), reAlts [strLit "meeting", strLit "event", strLit "appointment"]]

def deletePat2 : RE := reCat [reAlts [strLit "删除", strLit "取消", strLit "移除"], wsS, .opt (reAlts [strLit "会议", strLit "事件", strLit "日程"])]

def deletePat3 : RE := reCat [reAlts [strLit "drop", strLit "scratch"], wsP, .opt (reCat [strLit "the", wsP]), reAlts [strLit "event", strLit "meeting"]]

/-- `self.intent_patterns`, in insertion order. -/
def intentTable : List (String × List RE) :=
  [("create", [createPat1, createPat2, createPat3]),
   ("read", [readPat1, readPat2, readPat3]),
   ("update", [updatePat1, updatePat2, updatePat3]),
   ("delete", [deletePat1, deletePat2, deletePat3])]

/-- Pattern list of one intent. -/
def patternsOf (k : String) : List RE :=
  match intentTable.find? (fun e => e.1 = k) with
  | some e => e.2
  | none => []

/-! ### Time patterns (`_extract_time_info`, lines 124–133), in order,
paired with their number of capture groups.

`timeCore` is the repeated fragment `\d{1,2}(?::\d{2})?\s*(?:am|pm)?`. -/

def timeCore : RE := reCat [d12, .opt (reCat [strLit ":", d2]), wsS, .opt (reAlts [strLit "am", strLit "pm"])]

/-- `(?:at|from)\s+(timeCore)` — 1 group. -/
def timePat1 : RE := reCat [reAlts [strLit "at", strLit "from"], wsP, .grp 1 timeCore]

/-- `(?:from\s+)?(timeCore)\s*(?:to|until|-)\s*(timeCore)` — 2 groups. -/
def timePat2 : RE := reCat [.opt (reCat [strLit "from", wsP]), .grp 1 timeCore, wsS, reAlts [strLit "to", strLit "until", strLit "-"], wsS, .grp 2 timeCore]

/-- `(?:tomorrow|today|next\s+week)\s+(?:at\s+)?(timeCore)` — 1 group. -/
def timePat3 : RE := reCat [reAlts [strLit "tomorrow", strLit "today", reCat [strLit "next", wsP, strLit "week"]], wsP, .opt (reCat [strLit "at", wsP]), .grp 1 timeCore]

/-- `(?:今天|明天|下周)\s*(?:上午|下午)?(\d{1,2})点(?:\s*(\d{1,2})分)?` — 2 groups. -/
def timePat4 : RE := reCat [reAlts [strLit "今天", strLit "明天", strLit "下周"], wsS, .opt (reAlts [strLit "上午", strLit "下午"]), .grp 1 d12, strLit "点", .opt (reCat [wsS, .grp 2 d12, strLit "分"])]

/-- `(?:从)?(\d{1,2})点(?:\s*(\d{1,2})分)?\s*(?:到|至)(\d{1,2})点…` — 4 groups. -/
def timePat5 : RE := reCat [.opt (strLit "从"), .grp 1 d12, strLit "点", .opt (reCat [wsS, .grp 2 d12, strLit "分"]), wsS, reAlts [strLit "到", strLit "至"], wsS, .grp 3 d12, strLit "点", .opt (reCat [wsS, .grp 4 d12, strLit "分"])]

/-- `time_patterns` with each pattern's capture-group count (determines
whether `re.findall` yields strings or tuples). -/
def timeTable : List (RE × Nat) :=
  [(timePat1, 1), (timePat2, 2), (timePat3, 1), (timePat4, 2), (timePat5, 4)]

/-! ### `_parse_time_string` (lines 169–192) -/

/-- `(\d{1,2})点` -/
def hourMarkPat : RE := reCat [.grp 1 d12, strLit "点"]

/-- `(\d{1,2})分` -/
def minuteMarkPat : RE := reCat [.grp 1 d12, strLit "分"]

/-- `CalendarNLPParser._parse_time_string(time_str, base_date)`.  The
Chinese branch fires when the string contains `点`; `base_date.replace`
validates its arguments, so an out-of-range hour/minute raises and the
surrounding `try` returns `None`.  Otherwise the string goes to
`dateutil.parser.parse` with `base_date` as default. -/
def parseTimeString (timeStr : List Char) (base : PyDateTime) : Option PyDateTime :=
  if timeStr.contains '点' then
    let hour0 :=
      match searchCaps hourMarkPat timeStr with
      | some x => digitsVal (capStr x.2 1)
      | none => 0
    let minute :=
      match searchCaps minuteMarkPat timeStr with
      | some x => digitsVal (capStr x.2 1)
      | none => 0
    let hour := if subOccurs "下午".data timeStr && hour0 < 12 then hour0 + 12 else hour0
    if hour ≤ 23 && minute ≤ 59 then
      some { base with hour := hour, minute := minute, second := 0, micro := 0 }
    else none
  else dateutilParse timeStr base

/-! ### `_extract_time_info` (lines 119–167) -/

/-- The `time_info` dictionary: the two keys it may hold. -/
structure TimeState where
  start_time : Option PyDateTime := none
  end_time : Option PyDateTime := none
deriving DecidableEq, Repr

/-- Body of the `for match in matches:` loop (lines 146–165): a tuple of
length 2 is a "single time" (preferring a non-empty first group), a tuple
of length ≥ 3 is a "time range", and a plain string (a one-group pattern)
is a single time.  A failed parse leaves the state unchanged. -/
def processMatch (base : PyDateTime) (st : TimeState) (m : List (List Char)) : TimeState :=
  match m with
  | [a] =>
    match parseTimeString a base with
    | some s => { start_time := some s, end_time := some (addHours s 1) }
    | none => st
  | [a, b] =>
    let timeStr := if a ≠ [] then a else b
    match parseTimeString timeStr base with
    | some s => { start_time := some s, end_time := some (addHours s 1) }
    | none => st
  | a :: _ :: c :: _ =>
    match parseTimeString a base, parseTimeString c base with
    | some s, some e => { start_time := some s, end_time := some e }
    | _, _ => st
  | [] => st

/-- All `findall` matches of one pattern, as group tuples. -/
def patMatches (p : RE) (n : Nat) (text : List Char) : List (List (List Char)) :=
  (reFindall p text).map (matchGroups n)

/-- Lines 135–141: the base date honours `tomorrow`/`明天` (+1 day,
checked first) and `next week`/`下周` (+1 week); otherwise it is
`datetime.now()`, passed explicitly as `now`. -/
def baseDate (now : PyDateTime) (text : List Char) : PyDateTime :=
  if subOccurs "tomorrow".data (lowerChars text) || subOccurs "明天".data text then
    addDays now 1
  else if subOccurs "next week".data (lowerChars text) || subOccurs "下周".data text then
    addDays now 7
  else now

/-- `CalendarNLPParser._extract_time_info(text)` (lines 119–167): every
pattern of `time_patterns` is scanned in order and every `findall` match
is processed — the loop body contains no `break`, so a later match
overwrites the `time_info` keys written by an earlier one. -/
def extract_time_info (now : PyDateTime) (text : List Char) : TimeState :=
  timeTable.foldl
    (fun st pn => (patMatches pn.1 pn.2 text).foldl (processMatch (baseDate now text)) st)
    { start_time := none, end_time := none }

/-! ### `_extract_title` (lines 88–117) -/

/-- Line 92: command verbs / object nouns to strip. -/
def titleSub1 : RE := reCat [reAlts [strLit "create", strLit "add", strLit "schedule", strLit "make", strLit "book", strLit "安排", strLit "创建", strLit "添加", strLit "预定", strLit "新建", strLit "show", strLit "list", strLit "display", strLit "view", strLit "check", strLit "update", strLit "change", strLit "modify", strLit "delete", strLit "remove", strLit "cancel", strLit "查看", strLit "显示", strLit "列出", strLit "检查", strLit "看看", strLit "更新", strLit "修改", strLit "删除", strLit "取消"], wsS, .opt (reCat [strLit "a", wsP]), .opt (reAlts [strLit "meeting", strLit "event", strLit "appointment", strLit "会议", strLit "事件", strLit "日程", strLit "约会"])]

/-- Line 100: time phrases to strip. -/
def titleSub2 : RE := reAlts [strLit "at", strLit "on", strLit "from", strLit "to", strLit "until", strLit "between", timeCore, strLit "今天", strLit "明天", strLit "下周", strLit "上午", strLit "下午", strLit "点", strLit "分", strLit "点钟"]

/-- Line 108: location words to strip. -/
def titleSub3 : RE := reAlts [strLit "in", strLit "at", strLit "location", strLit "地点", strLit "位置", strLit "会议室", strLit "room", strLit "office", strLit "房间"]

/-- Line 115: connector words to strip. -/
def titleSub4 : RE := reAlts [strLit "和", strLit "与", strLit "with", strLit "for", strLit "about"]

/-- `CalendarNLPParser._extract_title(text)`. -/
def extract_title (text : List Char) : Option (List Char) :=
  let t1 := pyStrip (reSub titleSub1 text)
  let t2 := pyStrip (reSub titleSub2 t1)
  let t3 := pyStrip (reSub titleSub3 t2)
  let t4 := pyStrip (reSub titleSub4 t3)
  if t4 ≠ [] then some t4 else none

/-! ### `_extract_location` (lines 194–206) -/

/-- `[^.,!?]` -/
def notPunct (c : Char) : Bool := !(c = '.' || c = ',' || c = '!' || c = '?')

/-- `(?:in|at|location|地点|位置)\s+([^.,!?]+)` -/
def locPat1 : RE := reCat [reAlts [strLit "in", strLit "at", strLit "location", strLit "地点", strLit "位置"], wsP, .grp 1 (.plusCls notPunct)]

/-- `(?:会议室|room|office)\s+([^.,!?]+)` -/
def locPat2 : RE := reCat [reAlts [strLit "会议室", strLit "room", strLit "office"], wsP, .grp 1 (.plusCls notPunct)]

/-- `CalendarNLPParser._extract_location(text)`: first pattern whose
`re.search` fires wins; the captured phrase is stripped.  The result can be
the empty string (Python then treats it as falsy downstream). -/
def extract_location (text : List Char) : Option (List Char) :=
  match searchCaps locPat1 text with
  | some x => some (pyStrip (capStr x.2 1))
  | none =>
    match searchCaps locPat2 text with
    | some x => some (pyStrip (capStr x.2 1))
    | none => none

/-! ### `_extract_description` (lines 208–225) -/

/-- Line 215: time-related phrases removed when a start time was found. -/
def descSub1 : RE := reAlts [strLit "at", strLit "on", strLit "from", strLit "to", strLit "until", strLit "between", timeCore]

/-- Line 221: command words. -/
def descSub2 : RE := reAlts [strLit "create", strLit "add", strLit "schedule", strLit "make", strLit "book", strLit "安排", strLit "创建", strLit "添加", strLit "预定"]

/-- `CalendarNLPParser._extract_description(text, time_info, location)`.
`location` is the raw extractor output (`none` models Python `None`; an
empty string is falsy, so both skip the `str.replace`). -/
def extract_description (text : List Char) (tinfo : TimeState) (loc : Option (List Char)) : Option (List Char) :=
  let c1 := if tinfo.start_time.isSome then reSub descSub1 text else text
  let c2 :=
    match loc with
    | some l => if l ≠ [] then eraseOccurs l c1 else c1
    | none => c1
  let c3 := pyStrip (reSub descSub2 c2)
  if c3 ≠ [] && c3.length > 3 then some c3 else none

/-! ### `parse_intent` (lines 32–61) and `_extract_event_details` (63–86) -/

/-- The `ParsedCommand` record returned by `parse_intent` (the result
dictionary of line 36, after the `result.update(...)` of line 59).
`confidence` is a Python float, modelled as `ℚ`. -/
structure ParsedCommand where
  intent : Option String
  title : Option (List Char)
  start_time : Option PyDateTime
  end_time : Option PyDateTime
  description : Option (List Char)
  location : Option (List Char)
  target_event : Option (List Char)
  confidence : ℚ
deriving DecidableEq, Repr

/-- Python `max(d, key=d.get)` on an association list in insertion order:
the first key attaining the maximal value (later entries replace the
running best only when strictly greater). -/
def pymaxKey : List (String × Nat) → Option String
  | [] => none
  | x :: xs => some (xs.foldl (fun best y => if y.2 > best.2 then y else best) x).1

/-- Python `max(d.values())` (0 on the empty dictionary, which the code
never reaches). -/
def pymaxVal : List (String × Nat) → Nat
  | [] => 0
  | x :: xs => xs.foldl (fun b y => max b y.2) x.2

/-- The `intent_scores` dictionary (lines 48–52): each of an intent's
patterns adds 1 when `re.search` finds it, so an intent's score is the
number of its patterns that match; an intent enters the dictionary — in
`intent_patterns` enumeration order, since the outer loop follows it —
exactly when its score is positive. -/
def intentScores (text : List Char) : List (String × Nat) :=
  intentTable.filterMap fun e =>
    let c := (e.2.filter fun p => reSearch p text).length
    if c > 0 then some (e.1, c) else none

/-- Normalisation of line 34: `text.lower().strip()`. -/
def normText (raw : String) : List Char := pyStrip (lowerChars raw.data)

/-- `CalendarNLPParser.parse_intent(text)`, with `datetime.now()` (used by
`_extract_time_info`) passed explicitly.  Intent and confidence come from
the score dictionary (lines 54–56: `max(intent_scores, key=...)` and
`max(values)/len(patterns[intent])`); the slot extractors of
`_extract_event_details` then fill the remaining keys — they never touch
`intent`, `confidence` or `target_event`, and a falsy title / location /
description is not written into the result.

`confOf` is line 56: on a non-empty score dictionary the intent is
`max(intent_scores, key=intent_scores.get)` and the confidence is
`max(intent_scores.values()) / len(self.intent_patterns[intent])`; on an
empty one both keep their initial values `None` / `0.0` (and indeed
`pymaxKey [] = none`, `confOf [] = 0`). -/
def confOf (scores : List (String × Nat)) : ℚ :=
  match pymaxKey scores with
  | some k => (pymaxVal scores : ℚ) / ((patternsOf k).length : ℚ)
  | none => 0

/-- The assembled `ParsedCommand` (see the comment on `confOf` above). -/
def parse_intent (now : PyDateTime) (raw : String) : ParsedCommand :=
  let text := normText raw
  let tinfo := extract_time_info now text
  let loc := extract_location text
  { intent := pymaxKey (intentScores text),
    title := extract_title text,
    start_time := tinfo.start_time,
    end_time := tinfo.end_time,
    description := extract_description text tinfo loc,
    location := (match loc with
      | some l => if l ≠ [] then some l else none
      | none => none),
    target_event := none,
    confidence := confOf (intentScores text) }

/-! ## `src/deepseek_parser.py`: `DeepSeekCalendarParser` -/

/-! ### `_should_enable_reasoning` (lines 97–143) -/

/-- Late-night time-of-day keywords (line 110). -/
def timeKeywords : List String :=
  ["今天", "明天", "后天", "上午", "下午", "晚上", "凌晨", "早晨", "早上"]

/-- Relative time expressions that need reasoning (lines 115–120). -/
def relativeTimePhrases : List String :=
  ["下周", "下个月", "下个星期", "这周", "这个月", "这个星期",
   "月底", "月初", "年中", "年底", "年初", "工作日", "周末", "节假日", "假期"]

/-- Specific weekday expressions that do not need reasoning (lines 123–126). -/
def specificDatePhrases : List String :=
  ["下周一", "下周二", "下周三", "下周四", "下周五", "下周六", "下周日",
   "这周一", "这周二", "这周三", "这周四", "这周五", "这周六", "这周日"]

/-- Fuzzy time expressions (lines 136–138). -/
def vagueTimePhrases : List String :=
  ["最近", "过几天", "几天后", "下周左右", "大概", "大约", "左右", "前后", "差不多"]

/-- `DeepSeekCalendarParser._should_enable_reasoning(user_input)`, with
`datetime.now().hour` passed explicitly (a `Nat`; real hours are 0–23).
Returns `True` on the first satisfied branch: late-night hour with a
time keyword; a relative phrase without a specific-weekday phrase; a
fuzzy phrase.  Otherwise `False`. -/
def should_enable_reasoning (userInput : String) (currentHour : Nat) : Bool :=
  let lateNight :=
    decide (currentHour ≤ 6) &&
      timeKeywords.any (fun k => subOccurs k.data userInput.data)
  let hasRelativeTime :=
    relativeTimePhrases.any (fun k => subOccurs k.data userInput.data)
  let hasSpecificDate :=
    specificDatePhrases.any (fun k => subOccurs k.data userInput.data)
  let hasVague :=
    vagueTimePhrases.any (fun k => subOccurs k.data userInput.data)
  lateNight || (hasRelativeTime && !hasSpecificDate) || hasVague

/-! ### Python values, dictionaries, `json.loads`, `fromisoformat` -/

/-- A Python value as it appears in the parsed command dictionary. -/
inductive PyVal where
  | vstr : String → PyVal
  | vnum : Int → PyVal
  | vbool : Bool → PyVal
  | vnull : PyVal
  | vdt : PyDateTime → PyVal
deriving DecidableEq, Repr

/-- Python truthiness of a `PyVal`. -/
def pyTruthy : PyVal → Bool
  | .vstr s => s ≠ ""
  | .vnum n => n ≠ 0
  | .vbool b => b
  | .vnull => false
  | .vdt _ => true

/-- A Python dictionary with string keys, in insertion order. -/
def PyDict : Type := List (String × PyVal)

instance : DecidableEq PyDict := inferInstanceAs (DecidableEq (List (String × PyVal)))

instance : Repr PyDict := inferInstanceAs (Repr (List (String × PyVal)))

/-- `d.get(k)`: `none` both for a missing key (Python `None` default). -/
def dictGet (d : PyDict) (k : String) : Option PyVal :=
  match d.find? (fun e => e.1 = k) with
  | some e => some e.2
  | none => none

/-- `d[k] = v`: replace in place, or append a new key. -/
def dictSet : PyDict → String → PyVal → PyDict
  | [], k, v => [(k, v)]
  | e :: t, k, v => if e.1 = k then (k, v) :: t else e :: dictSet t k v

/-- Open brace (written with an escape throughout this file). -/
def obrace : Char := '\x7b'

/-- Close brace. -/
def cbrace : Char := '\x7d'

/-- JSON whitespace. -/
def jsonWs (c : Char) : Bool := c = ' ' || c = '\t' || c = '\n' || c = '\x0d'

/-- Parse a JSON string body after the opening quote; escapes are not
needed by any input considered here and make the parse fail (a
conservative under-approximation of `json.loads`). -/
def parseJStr : List Char → Option (String × List Char)
  | [] => none
  | c :: t =>
    if c = '"' then some ("", t)
    else if c = '\\' then none
    else match parseJStr t with
      | some (s, r) => some (String.mk (c :: s.data), r)
      | none => none

/-- Parse a JSON scalar value: string, integer, `true`, `false`, `null`.
Fractions, exponents and nested containers are rejected (none occur in
the responses considered here). -/
def parseJVal (s : List Char) : Option (PyVal × List Char) :=
  let t := s.dropWhile jsonWs
  match t with
  | [] => none
  | c :: r =>
    if c = '"' then (parseJStr r).map (fun x => (.vstr x.1, x.2))
    else if c = 't' then (litMatch "rue".data r).map (fun x => (.vbool true, x))
    else if c = 'f' then (litMatch "alse".data r).map (fun x => (.vbool false, x))
    else if c = 'n' then (litMatch "ull".data r).map (fun x => (.vnull, x))
    else if c = '-' || c.isDigit then
      let ds := t.takeWhile (fun d => d.isDigit || d = '-')
      let rest := t.dropWhile (fun d => d.isDigit || d = '-')
      if ds.all (fun d => d.isDigit) then some (.vnum (digitsVal ds), rest)
      else
        match ds with
        | '-' :: more => if more ≠ [] && more.all Char.isDigit then some (.vnum (-(digitsVal more : Int)), rest) else none
        | _ => none
    else none

/-- Parse the members of a JSON object after the opening brace (first
member pending); duplicate keys keep the last value, as in Python. -/
def parseJMembers : Nat → PyDict → List Char → Option (PyDict × List Char)
  | 0, _, _ => none
  | fuel + 1, acc, s =>
    let t := s.dropWhile jsonWs
    match t with
    | '"' :: r =>
      match parseJStr r with
      | none => none
      | some (k, r1) =>
        let r2 := r1.dropWhile jsonWs
        match r2 with
        | ':' :: r3 =>
          match parseJVal r3 with
          | none => none
          | some (v, r4) =>
            let acc' := dictSet acc k v
            let r5 := r4.dropWhile jsonWs
            match r5 with
            | ',' :: r6 => parseJMembers fuel acc' r6
            | c :: r6 => if c = cbrace then some (acc', r6) else none
            | [] => none
        | _ => none
    | _ => none

/-- `json.loads(s)` for a flat JSON object (the only shape the claims
need); anything else fails, which the caller's `try` turns into the
fallback result. -/
def jsonLoads (s : String) : Option PyDict :=
  let t := s.data.dropWhile jsonWs
  match t with
  | c :: r =>
    if c = obrace then
      let r1 := r.dropWhile jsonWs
      match r1 with
      | d :: r2 =>
        if d = cbrace then
          if r2.dropWhile jsonWs = [] then some [] else none
        else
          match parseJMembers (s.length + 1) [] r1 with
          | some (obj, rest) => if rest.dropWhile jsonWs = [] then some obj else none
          | none => none
      | [] => none
    else none
  | [] => none

/-- Read exactly `n` decimal digits. -/
def takeDigits (n : Nat) (s : List Char) : Option (Nat × List Char) :=
  let ds := s.take n
  if ds.length = n && ds.all Char.isDigit then some (digitsVal ds, s.drop n) else none

/-- `datetime.fromisoformat` for `YYYY-MM-DD[{T, }HH:MM[:SS[.ffffff]]]`
strings, validating every field. -/
def fromIso (s : String) : Option PyDateTime :=
  match takeDigits 4 s.data with
  | none => none
  | some (y, r1) =>
    match r1 with
    | '-' :: r2 =>
      match takeDigits 2 r2 with
      | none => none
      | some (mo, r3) =>
        match r3 with
        | '-' :: r4 =>
          match takeDigits 2 r4 with
          | none => none
          | some (d, r5) =>
            if !(1 ≤ mo && mo ≤ 12 && 1 ≤ d && d ≤ daysInMonth y mo) then none
            else
              match r5 with
              | [] => some ⟨y, mo, d, 0, 0, 0, 0⟩
              | sep :: r6 =>
                if !(sep = 'T' || sep = ' ') then none
                else
                  match takeDigits 2 r6 with
                  | none => none
                  | some (h, r7) =>
                    match r7 with
                    | ':' :: r8 =>
                      match takeDigits 2 r8 with
                      | none => none
                      | some (mi, r9) =>
                        if !(h ≤ 23 && mi ≤ 59) then none
                        else
                          match r9 with
                          | [] => some ⟨y, mo, d, h, mi, 0, 0⟩
                          | ':' :: r10 =>
                            match takeDigits 2 r10 with
                            | none => none
                            | some (sec, r11) =>
                              if !(sec ≤ 59) then none
                              else
                                match r11 with
                                | [] => some ⟨y, mo, d, h, mi, sec, 0⟩
                                | '.' :: r12 =>
                                  match takeDigits 6 r12 with
                                  | some (us, []) => some ⟨y, mo, d, h, mi, sec, us⟩
                                  | _ => none
                                | _ => none
                          | _ => none
                    | _ => none
        | _ => none
    | _ => none

/-! ### `parse_command` (lines 145–229) -/

/-- `str.find(c)`: index of the first occurrence. -/
def firstIdx (c : Char) : List Char → Option Nat
  | [] => none
  | x :: t => if x = c then some 0 else (firstIdx c t).map (· + 1)

/-- `str.rfind(c)`: index of the last occurrence. -/
def lastIdx (c : Char) : List Char → Option Nat
  | [] => none
  | x :: t =>
    match lastIdx c t with
    | some k => some (k + 1)
    | none => if x = c then some 0 else none

/-- Lines 189–193: `content.find('{')`, `content.rfind('}') + 1`, and the
slice `content[json_start:json_end]` when `json_start >= 0 and
json_end > json_start` (Python `find`/`rfind` return -1 when absent, which
makes the guard fail). -/
def extractedJson (content : List Char) : Option (List Char) :=
  match firstIdx obrace content, lastIdx cbrace content with
  | some i, some j =>
    if j + 1 > i then some ((content.drop i).take (j + 1 - i)) else none
  | _, _ => none

/-- The fallback dictionary returned on lines 208–216 and 221–229: every
field present and `None`. -/
def fallbackCommand : PyDict :=
  [("intent", .vnull), ("title", .vnull), ("start_time", .vnull),
   ("end_time", .vnull), ("description", .vnull), ("location", .vnull),
   ("target_event", .vnull)]

/-- Lines 198–201: `if parsed_data.get(k): parsed_data[k] =
datetime.fromisoformat(parsed_data[k])`.  A falsy or missing value is left
alone; a truthy non-string or an invalid ISO string raises
(`none`), which the surrounding `try` turns into the fallback. -/
def convertTimeField (d : PyDict) (k : String) : Option PyDict :=
  match dictGet d k with
  | none => some d
  | some v =>
    if pyTruthy v then
      match v with
      | .vstr s =>
        match fromIso s with
        | some dt => some (dictSet d k (.vdt dt))
        | none => none
      | _ => none
    else some d

/-- The outcome of the completion-service call: `apiContent` is the
stripped-to-be message text `data["choices"][0]["message"]["content"]`
when the POST, the status check and the response decoding all succeed;
`apiFailure` stands for any exception raised before that point (network
error, non-2xx status via `raise_for_status`, timeout, body-shape error).
Request construction (prompt, temperature, the reasoning flag from
`_should_enable_reasoning`) does not influence the returned record and is
abstracted into this argument. -/
inductive ApiResult where
  | apiFailure : String → ApiResult
  | apiContent : String → ApiResult
deriving DecidableEq, Repr

/-- `DeepSeekCalendarParser.parse_command(user_input)` as a function of
the completion-service outcome.  Every exception inside the `try` block —
transport failure, `json.loads` failure, `fromisoformat` failure — lands
in the `except` clause, which returns `fallbackCommand`; a response
without a usable brace pair returns the same structure from the `else`
branch.  The function is total: it never propagates an exception. -/
def parse_command (r : ApiResult) : PyDict :=
  match r with
  | .apiFailure _ => fallbackCommand
  | .apiContent raw =>
    let content := pyStrip raw.data
    match extractedJson content with
    | none => fallbackCommand
    | some jsonStr =>
      match jsonLoads (String.mk jsonStr) with
      | none => fallbackCommand
      | some parsed =>
        match convertTimeField parsed "start_time" with
        | none => fallbackCommand
        | some d1 =>
          match convertTimeField d1 "end_time" with
          | none => fallbackCommand
          | some d2 => d2

/-! ## Auxiliary definitions for the statements of the claims -/

/-- The intent enumeration, in `intent_patterns` order. -/
def enumIntents : List String := ["create", "read", "update", "delete"]

/-- Score of one intent on a text: the number of its patterns that
`re.search` finds (each pattern contributes at most 1 however many times
it occurs). -/
def intentScoreOf (k : String) (text : List Char) : Nat :=
  ((patternsOf k).filter fun p => reSearch p text).length

/-- The maximal score over the intent enumeration. -/
def maxScore (sc : String → Nat) : Nat :=
  enumIntents.foldl (fun b k => max b (sc k)) 0

/-- The first intent, in enumeration order, attaining the maximal score —
the tie-breaking rule the claims describe. -/
def firstMaxIntent (sc : String → Nat) : Option String :=
  enumIntents.find? fun k => sc k = maxScore sc

/-- The score dictionary determined by the four scores, entries present
exactly for positive scores, in enumeration order. -/
def scoresOf (ca cr cu cd : Nat) : List (String × Nat) :=
  (if ca > 0 then [("create", ca)] else []) ++
  (if cr > 0 then [("read", cr)] else []) ++
  (if cu > 0 then [("update", cu)] else []) ++
  (if cd > 0 then [("delete", cd)] else [])

/-- A score function from the four scores. -/
def scOf (ca cr cu cd : Nat) (k : String) : Nat :=
  if "create" = k then ca
  else if "read" = k then cr
  else if "update" = k then cu
  else if "delete" = k then cd
  else 0

/-- The state one `findall` match would write, if its time strings parse
(`none` when the match writes nothing and the previous state survives). -/
def fireOf (base : PyDateTime) (m : List (List Char)) : Option TimeState :=
  match m with
  | [a] =>
    (parseTimeString a base).map fun s =>
      { start_time := some s, end_time := some (addHours s 1) }
  | [a, b] =>
    (parseTimeString (if a ≠ [] then a else b) base).map fun s =>
      { start_time := some s, end_time := some (addHours s 1) }
  | a :: _ :: c :: _ =>
    match parseTimeString a base, parseTimeString c base with
    | some s, some e => some { start_time := some s, end_time := some e }
    | _, _ => none
  | [] => none

/-- All states written while `_extract_time_info` processes a text, in
processing order (patterns in list order, matches left to right). -/
def allFires (now : PyDateTime) (text : List Char) : List TimeState :=
  (timeTable.flatMap fun pn => patMatches pn.1 pn.2 text).filterMap
    (fireOf (baseDate now text))

/-- Does the text contain a `'{'` and, somewhere after it, a `'}'`? -/
def hasBracePair : List Char → Bool
  | [] => false
  | c :: t => (if c = obrace then t.contains cbrace else false) || hasBracePair t

/-- Reference instants used by the concrete evaluations below. -/
def nowA : PyDateTime := ⟨2025, 3, 1, 10, 20, 30, 0⟩

def nowB : PyDateTime := ⟨2025, 12, 31, 10, 7, 9, 0⟩

def nowC : PyDateTime := ⟨2025, 3, 5, 10, 20, 30, 0⟩

/-! ## Helper lemmas -/

/-- The parse result never carries a winning-score assignment other than
the one the embedded dictionary computes: `max(d, key=d.get)` on the
score dictionary of four bounded scores agrees with "first intent in
enumeration order attaining the maximal score".  Checked over all
score combinations (each score is at most 3). -/
theorem selectionFin : ∀ ca cr cu cd : Fin 4,
    scoresOf ca.val cr.val cu.val cd.val ≠ [] →
      pymaxKey (scoresOf ca.val cr.val cu.val cd.val) =
        firstMaxIntent (scOf ca.val cr.val cu.val cd.val) := by decide

/-- On a non-empty score dictionary the winning key's score is the maximal
value, which lies in [1, 3]. -/
theorem winnerFin : ∀ ca cr cu cd : Fin 4, ∀ k ∈ enumIntents,
    pymaxKey (scoresOf ca.val cr.val cu.val cd.val) = some k →
      pymaxVal (scoresOf ca.val cr.val cu.val cd.val) = scOf ca.val cr.val cu.val cd.val k ∧
      1 ≤ pymaxVal (scoresOf ca.val cr.val cu.val cd.val) ∧
      pymaxVal (scoresOf ca.val cr.val cu.val cd.val) ≤ 3 := by decide

/-- The winning key, when any, is one of the four enumerated intents. -/
theorem winnerMemFin : ∀ ca cr cu cd : Fin 4,
    (pymaxKey (scoresOf ca.val cr.val cu.val cd.val)).all
      (fun k => enumIntents.contains k) = true := by decide

theorem selectionNat (ca cr cu cd : Nat) (h1 : ca ≤ 3) (h2 : cr ≤ 3) (h3 : cu ≤ 3)
    (h4 : cd ≤ 3) (hne : scoresOf ca cr cu cd ≠ []) :
    pymaxKey (scoresOf ca cr cu cd) = firstMaxIntent (scOf ca cr cu cd) :=
  selectionFin ⟨ca, by omega⟩ ⟨cr, by omega⟩ ⟨cu, by omega⟩ ⟨cd, by omega⟩ hne

theorem winnerNat (ca cr cu cd : Nat) (h1 : ca ≤ 3) (h2 : cr ≤ 3) (h3 : cu ≤ 3)
    (h4 : cd ≤ 3) (k : String) (hm : k ∈ enumIntents)
    (hk : pymaxKey (scoresOf ca cr cu cd) = some k) :
    pymaxVal (scoresOf ca cr cu cd) = scOf ca cr cu cd k ∧
      1 ≤ pymaxVal (scoresOf ca cr cu cd) ∧ pymaxVal (scoresOf ca cr cu cd) ≤ 3 :=
  winnerFin ⟨ca, by omega⟩ ⟨cr, by omega⟩ ⟨cu, by omega⟩ ⟨cd, by omega⟩ k hm hk

theorem winnerMemNat (ca cr cu cd : Nat) (h1 : ca ≤ 3) (h2 : cr ≤ 3) (h3 : cu ≤ 3)
    (h4 : cd ≤ 3) :
    (pymaxKey (scoresOf ca cr cu cd)).all (fun k => enumIntents.contains k) = true :=
  winnerMemFin ⟨ca, by omega⟩ ⟨cr, by omega⟩ ⟨cu, by omega⟩ ⟨cd, by omega⟩

/-- The score dictionary of a text is determined by the four per-intent
scores: entries appear in enumeration order, exactly for positive
scores — the shape the nested scan loop of lines 48–52 produces. -/
theorem scores_as_quad (t : List Char) :
    intentScores t =
      scoresOf (intentScoreOf "create" t) (intentScoreOf "read" t)
        (intentScoreOf "update" t) (intentScoreOf "delete" t) := by
  simp only [intentScores, intentTable, scoresOf, intentScoreOf, patternsOf,
    List.filterMap_cons, List.filterMap_nil, List.find?]
  by_cases hc : (([createPat1, createPat2, createPat3].filter fun p => reSearch p t).length > 0) <;>
  by_cases hr : (([readPat1, readPat2, readPat3].filter fun p => reSearch p t).length > 0) <;>
  by_cases hu : (([updatePat1, updatePat2, updatePat3].filter fun p => reSearch p t).length > 0) <;>
  by_cases hd : (([deletePat1, deletePat2, deletePat3].filter fun p => reSearch p t).length > 0) <;>
  simp [hc, hr, hu, hd]

/-- One loop iteration of `_extract_time_info` either replaces the whole
state (when the match's time strings parse) or leaves it unchanged. -/
theorem processMatch_fireOf (base : PyDateTime) (st : TimeState) (m : List (List Char)) :
    processMatch base st m = (fireOf base m).getD st := by
  match m with
  | [] => rfl
  | [a] =>
    cases hp : parseTimeString a base <;> simp [processMatch, fireOf, hp]
  | [a, b] =>
    cases hp : parseTimeString (if a = [] then b else a) base <;>
      simp [processMatch, fireOf, hp]
  | a :: b :: c :: rest =>
    cases hp1 : parseTimeString a base <;> cases hp2 : parseTimeString c base <;>
      simp [processMatch, fireOf, hp1, hp2]

theorem getLast?_cons_getD {β : Type} (l : List β) (b init : β) :
    ((b :: l).getLast?).getD init = (l.getLast?).getD b := by
  induction l generalizing b init with
  | nil => rfl
  | cons c t ih => rw [List.getLast?_cons_cons, ih, ih]

theorem getLast?_append_getD {β : Type} (u v : List β) (init : β) :
    (((u ++ v).getLast?).getD init) = (v.getLast?).getD ((u.getLast?).getD init) := by
  induction u generalizing init with
  | nil => rfl
  | cons a u ih => rw [List.cons_append, getLast?_cons_getD, ih, getLast?_cons_getD]

/-- A left fold of "apply the update if it fires" is the last firing
update (or the initial state when none fires). -/
theorem foldl_getD {α β : Type} (f : α → Option β) (l : List α) (init : β) :
    l.foldl (fun st m => (f m).getD st) init = ((l.filterMap f).getLast?).getD init := by
  induction l generalizing init with
  | nil => rfl
  | cons a t ih =>
    simp only [List.foldl_cons, List.filterMap_cons]
    cases hf : f a with
    | none => simp only [Option.getD_none]; exact ih init
    | some b => rw [Option.getD_some, ih b, getLast?_cons_getD]

/-- The nested pattern/match loop of `_extract_time_info`, over any
pattern table, equals the last firing match over the concatenation of all
matches. -/
theorem foldTable (base : PyDateTime) (text : List Char) (tbl : List (RE × Nat))
    (init : TimeState) :
    tbl.foldl (fun st pn => (patMatches pn.1 pn.2 text).foldl (processMatch base) st) init =
      (((tbl.flatMap fun pn => patMatches pn.1 pn.2 text).filterMap
        (fireOf base)).getLast?).getD init := by
  induction tbl generalizing init with
  | nil => rfl
  | cons hd tl ih =>
    simp only [List.foldl_cons, List.flatMap_cons, List.filterMap_append]
    rw [ih, getLast?_append_getD]
    congr 1
    have hfold : (patMatches hd.1 hd.2 text).foldl (processMatch base) init =
        (patMatches hd.1 hd.2 text).foldl (fun st m => (fireOf base m).getD st) init := by
      induction (patMatches hd.1 hd.2 text) generalizing init with
      | nil => rfl
      | cons m ms ihm =>
        simp only [List.foldl_cons]
        rw [processMatch_fireOf, ihm]
    rw [hfold, foldl_getD]

/-- A match with at most two groups (every pattern except the Chinese
range pattern) preserves "`end_time` is `start_time` plus one hour". -/
theorem processMatch_short_inv (base : PyDateTime) (st : TimeState) (m : List (List Char))
    (hlen : m.length ≤ 2)
    (h : ∀ s, st.start_time = some s → st.end_time = some (addHours s 1)) :
    ∀ s, (processMatch base st m).start_time = some s →
      (processMatch base st m).end_time = some (addHours s 1) := by
  match m with
  | [] => exact h
  | [a] =>
    cases hp : parseTimeString a base with
    | none => simpa [processMatch, hp] using h
    | some v =>
      intro s hs
      simp [processMatch, hp] at hs ⊢
      rw [← hs]
  | [a, b] =>
    cases hp : parseTimeString (if a = [] then b else a) base with
    | none => simpa [processMatch, hp] using h
    | some v =>
      intro s hs
      simp [processMatch, hp] at hs ⊢
      rw [← hs]
  | a :: b :: c :: rest => simp at hlen

theorem foldMatches_inv (base : PyDateTime) (l : List (List (List Char)))
    (hl : ∀ m ∈ l, m.length ≤ 2) (st : TimeState)
    (h : ∀ s, st.start_time = some s → st.end_time = some (addHours s 1)) :
    ∀ s, (l.foldl (processMatch base) st).start_time = some s →
      (l.foldl (processMatch base) st).end_time = some (addHours s 1) := by
  induction l generalizing st with
  | nil => exact h
  | cons m ms ih =>
    simp only [List.foldl_cons]
    exact ih (fun x hx => hl x (List.mem_cons_of_mem m hx)) _
      (processMatch_short_inv base st m (hl m (List.mem_cons_self m ms)) h)

theorem patMatches_mem_length (p : RE) (n : Nat) (text : List Char) :
    ∀ m ∈ patMatches p n text, m.length = n := by
  intro m hm
  simp only [patMatches, List.mem_map] at hm
  obtain ⟨caps, _, rfl⟩ := hm
  simp [matchGroups]

theorem lastIdx_some_mem (c : Char) (s : List Char) (k : Nat) (h : lastIdx c s = some k) :
    c ∈ s := by
  induction s generalizing k with
  | nil => simp [lastIdx] at h
  | cons x t ih =>
    simp only [lastIdx] at h
    cases hlt : lastIdx c t with
    | some j => exact List.mem_cons_of_mem x (ih j hlt)
    | none =>
      rw [hlt] at h
      by_cases hx : x = c
      · rw [hx]; exact List.mem_cons_self c t
      · simp [hx] at h

theorem bracePair_cons (x : Char) (t : List Char) (h : hasBracePair t = true) :
    hasBracePair (x :: t) = true := by
  simp [hasBracePair, h]

/-- When the first `'{'` sits no later than the last `'}'`, the string
contains a brace pair. -/
theorem firstIdx_lastIdx_bracePair (s : List Char) (i j : Nat)
    (hf : firstIdx obrace s = some i) (hl : lastIdx cbrace s = some j) (hij : i ≤ j) :
    hasBracePair s = true := by
  induction s generalizing i j with
  | nil => simp [firstIdx] at hf
  | cons x t ih =>
    simp only [firstIdx] at hf
    by_cases hx : x = obrace
    · rw [if_pos hx] at hf
      cases hlt : lastIdx cbrace t with
      | some k =>
        have hmem := lastIdx_some_mem cbrace t k hlt
        simp only [hasBracePair, hx, if_pos, Bool.or_eq_true]
        left
        simpa using hmem
      | none =>
        simp only [lastIdx, hlt] at hl
        rw [hx] at hl
        simp [obrace, cbrace] at hl
    · rw [if_neg hx] at hf
      cases hft : firstIdx obrace t with
      | none => rw [hft] at hf; simp at hf
      | some i' =>
        rw [hft] at hf
        simp only [Option.map_some'] at hf
        have hi : i = i' + 1 := (Option.some.injEq _ _).mp hf.symm
        cases hlt : lastIdx cbrace t with
        | some k =>
          simp only [lastIdx, hlt] at hl
          have hj : j = k + 1 := (Option.some.injEq _ _).mp hl.symm
          exact bracePair_cons x t (ih i' k hft hlt (by omega))
        | none =>
          simp only [lastIdx, hlt] at hl
          by_cases hxc : x = cbrace
          · rw [if_pos hxc] at hl
            have hj : j = 0 := (Option.some.injEq _ _).mp hl.symm
            omega
          · rw [if_neg hxc] at hl
            exact absurd hl (by simp)

theorem bracePair_append (u v : List Char) (h : hasBracePair u = true) :
    hasBracePair (u ++ v) = true := by
  induction u with
  | nil => simp [hasBracePair] at h
  | cons x t ih =>
    simp only [hasBracePair, Bool.or_eq_true] at h
    rcases h with h | h
    · rw [List.cons_append]
      simp only [hasBracePair, Bool.or_eq_true]
      left
      by_cases hx : x = obrace
      · rw [if_pos hx] at h ⊢
        simp only [List.contains_eq_any_beq, List.any_eq_true, beq_iff_eq] at h ⊢
        obtain ⟨y, hy, rfl⟩ := h
        exact ⟨cbrace, List.mem_append_left v hy, rfl⟩
      · rw [if_neg hx] at h
        exact absurd h (by simp)
    · rw [List.cons_append]
      exact bracePair_cons x (t ++ v) (ih h)

theorem bracePair_dropWhile (p : Char → Bool) (s : List Char)
    (h : hasBracePair (s.dropWhile p) = true) : hasBracePair s = true := by
  induction s with
  | nil => simpa [List.dropWhile] using h
  | cons x t ih =>
    by_cases hx : p x
    · rw [List.dropWhile_cons_of_pos hx] at h
      exact bracePair_cons x t (ih h)
    · rwa [List.dropWhile_cons_of_neg hx] at h

theorem bracePair_dropTrailWs (s : List Char) (h : hasBracePair (dropTrailWs s) = true) :
    hasBracePair s = true := by
  have hsplit : dropTrailWs s ++ (s.reverse.takeWhile pyWs).reverse = s := by
    rw [dropTrailWs, ← List.reverse_append, List.takeWhile_append_dropWhile,
      List.reverse_reverse]
  rw [← hsplit]
  exact bracePair_append _ _ h

/-- `str.strip()` cannot create a brace pair. -/
theorem bracePair_pyStrip (s : List Char) (h : hasBracePair (pyStrip s) = true) :
    hasBracePair s = true :=
  bracePair_dropWhile pyWs s (bracePair_dropTrailWs (s.dropWhile pyWs) h)

/-- If the `find`/`rfind` slice of lines 189–193 succeeds, the (stripped)
response contains a brace pair. -/
theorem extractedJson_bracePair (s t : List Char) (h : extractedJson s = some t) :
    hasBracePair s = true := by
  unfold extractedJson at h
  cases hf : firstIdx obrace s with
  | none => rw [hf] at h; simp at h
  | some i =>
    cases hl : lastIdx cbrace s with
    | none => rw [hf, hl] at h; simp at h
    | some j =>
      rw [hf, hl] at h
      by_cases hij : j + 1 > i
      · exact firstIdx_lastIdx_bracePair s i j hf hl (by omega)
      · simp [hij] at h

/-- Writing one key leaves the others unchanged. -/
theorem dictGet_dictSet_ne (d : PyDict) (k k' : String) (v : PyVal) (h : k ≠ k') :
    dictGet (dictSet d k v) k' = dictGet d k' := by
  have hkk : ¬ k' = k := fun hh => h hh.symm
  induction d with
  | nil => simp [dictSet, dictGet, List.find?, h]
  | cons e t ih =>
    by_cases hek : e.1 = k
    · have hek' : ¬ e.1 = k' := by rw [hek]; exact h
      simp [dictSet, hek, dictGet, List.find?, hek', h, hkk]
    · by_cases hek2 : e.1 = k'
      · simp [dictSet, hek, dictGet, List.find?, hek2, hkk]
      · simp only [dictSet, if_neg hek, dictGet, List.find?, hek2]
        simp [hek2]
        simpa [dictGet] using ih

/-- The in-place ISO conversion of one time field (lines 198–201) does not
touch any other key. -/
theorem convertTimeField_get_other (d : PyDict) (k k' : String) (h : k ≠ k') (d' : PyDict)
    (hc : convertTimeField d k = some d') : dictGet d' k' = dictGet d k' := by
  unfold convertTimeField at hc
  cases hg : dictGet d k with
  | none =>
    simp only [hg] at hc
    injection hc with hc
    rw [← hc]
  | some v =>
    simp only [hg] at hc
    by_cases ht : pyTruthy v
    · rw [if_pos ht] at hc
      cases v with
      | vstr s =>
        cases hi : fromIso s with
        | none => simp [hi] at hc
        | some dt =>
          simp only [hi] at hc
          injection hc with hc
          rw [← hc]
          exact dictGet_dictSet_ne d k k' (.vdt dt) h
      | vnum n => simp at hc
      | vbool b => simp at hc
      | vnull => simp at hc
      | vdt x => simp at hc
    · rw [if_neg ht] at hc
      injection hc with hc
      rw [← hc]

/-! ## The claims -/

/-- C1 (counterexample): the claim "`intent = none` implies every other
field is absent" is false: on the input `"hello"` no intent pattern
matches, yet the slot extractors — which run unconditionally — still
return a title (and a description). -/
theorem c1_counterexample :
    (parse_intent nowA "hello").intent = none ∧
    (parse_intent nowA "hello").title = some "hello".data := by
  refine ⟨by decide, by decide⟩

/-- C1 (amended): when no intent pattern matches (`intent = none`) the
confidence is 0 (and `target_event` is always `none`), but the
independently-running extractors may still populate title, times,
location and description. -/
theorem c1_intent_none_confidence_zero (now : PyDateTime) (raw : String)
    (h : (parse_intent now raw).intent = none) :
    (parse_intent now raw).confidence = 0 := by
  unfold parse_intent at h ⊢
  cases hs : intentScores (normText raw) with
  | nil => simp [confOf, pymaxKey, hs]
  | cons x xs => simp [pymaxKey, hs] at h

theorem c1_witness :
    (parse_intent nowA "hello").intent = none ∧
    (parse_intent nowA "hello").confidence = 0 :=
  ⟨by decide, c1_intent_none_confidence_zero nowA "hello" (by decide)⟩

/-- C2 (code bug): on `"明天下午3点开会"` with reference instant
2025-03-05 10:20:30, the extractor returns 2025-03-03 10:20:30 — not
2025-03-06 15:00 as the claim (and the intent documented in
`_parse_time_string`'s Chinese branch) requires.  The Chinese time
pattern's capture group passes only the bare digits `"3"` on, so the
`'点'`/`'下午'` branch never fires and `dateutil` reads the number as a
day-of-month, replacing the day and keeping the current wall-clock
time. -/
theorem c2_chinese_afternoon_eval :
    subOccurs "明天".data "明天下午3点开会".data = true ∧
    subOccurs "下午3点".data "明天下午3点开会".data = true ∧
    extract_time_info nowC "明天下午3点开会".data =
      { start_time := some ⟨2025, 3, 3, 10, 20, 30, 0⟩,
        end_time := some ⟨2025, 3, 3, 11, 20, 30, 0⟩ } ∧
    (extract_time_info nowC "明天下午3点开会".data).start_time ≠
      some ⟨2025, 3, 6, 15, 0, 0, 0⟩ := by
  refine ⟨by decide, by decide, by decide, by decide⟩

/-- C3: whenever the Chinese range pattern (the only pattern processed by
the range branch) finds no match, any `start_time` the extractor returns
comes with `end_time = start_time + timedelta(hours=1)` — duration
addition that carries past hour 23 into the next day. -/
theorem c3_default_duration_one_hour (now : PyDateTime) (text : List Char)
    (h5 : reFindall timePat5 text = []) :
    ∀ s, (extract_time_info now text).start_time = some s →
      (extract_time_info now text).end_time = some (addHours s 1) := by
  have h5' : patMatches timePat5 4 text = [] := by
    rw [patMatches, h5]; rfl
  unfold extract_time_info timeTable
  simp only [List.foldl_cons, List.foldl_nil, h5', List.foldl_nil]
  refine foldMatches_inv _ _ ?_ _ (foldMatches_inv _ _ ?_ _ (foldMatches_inv _ _ ?_ _
    (foldMatches_inv _ _ ?_ _ ?_)))
  · intro m hm; rw [patMatches_mem_length timePat4 2 text m hm]
  · intro m hm; rw [patMatches_mem_length timePat3 1 text m hm]; omega
  · intro m hm; rw [patMatches_mem_length timePat2 2 text m hm]
  · intro m hm; rw [patMatches_mem_length timePat1 1 text m hm]; omega
  · intro s hs; cases hs

theorem c3_witness :
    reFindall timePat5 "at 23:30".data = [] ∧
    (extract_time_info nowB "at 23:30".data).start_time =
      some ⟨2025, 12, 31, 23, 30, 9, 0⟩ ∧
    (extract_time_info nowB "at 23:30".data).end_time =
      some ⟨2026, 1, 1, 0, 30, 9, 0⟩ :=
  ⟨by decide, by decide,
    c3_default_duration_one_hour nowB "at 23:30".data (by decide)
      ⟨2025, 12, 31, 23, 30, 9, 0⟩ (by decide)⟩

/-- C4 (counterexample): the claim "the first matching pattern determines
the result" is false.  On `"at 5pm tomorrow 7pm"` the first pattern
matches and by itself would produce 17:20/18:20, but the extractor
returns 19:20/20:20, produced by the later `tomorrow …` pattern — later
matches overwrite earlier ones. -/
theorem c4_counterexample :
    reFindall timePat1 "at 5pm tomorrow 7pm".data ≠ [] ∧
    (patMatches timePat1 1 "at 5pm tomorrow 7pm".data).foldl
        (processMatch (baseDate nowA "at 5pm tomorrow 7pm".data))
        { start_time := none, end_time := none } =
      { start_time := some ⟨2025, 3, 2, 17, 20, 30, 0⟩,
        end_time := some ⟨2025, 3, 2, 18, 20, 30, 0⟩ } ∧
    extract_time_info nowA "at 5pm tomorrow 7pm".data =
      { start_time := some ⟨2025, 3, 2, 19, 20, 30, 0⟩,
        end_time := some ⟨2025, 3, 2, 20, 20, 30, 0⟩ } ∧
    ({ start_time := some ⟨2025, 3, 2, 17, 20, 30, 0⟩,
       end_time := some ⟨2025, 3, 2, 18, 20, 30, 0⟩ } : TimeState) ≠
      { start_time := some ⟨2025, 3, 2, 19, 20, 30, 0⟩,
        end_time := some ⟨2025, 3, 2, 20, 20, 30, 0⟩ } := by
  refine ⟨by decide, by decide, by decide, by decide⟩

/-- C4 (amended): the extractor processes every pattern in list order and
every match left to right, each successful match overwriting both time
fields; the result is therefore the LAST successful match over all
patterns (`allFires`), not the first — and the empty state when no match
succeeds. -/
theorem c4_last_match_wins (now : PyDateTime) (text : List Char) :
    extract_time_info now text =
      ((allFires now text).getLast?).getD { start_time := none, end_time := none } := by
  unfold extract_time_info allFires
  exact foldTable (baseDate now text) text timeTable _

/-- C5: when at least one intent pattern matches, `parse_intent` returns
the first intent in the enumeration order create, read, update, delete
whose score — the number of its patterns that match, each contributing at
most 1 (hence at most the intent's pattern count) — attains the
maximum. -/
theorem c5_argmax_first_tie_break (now : PyDateTime) (raw : String)
    (h : intentScores (normText raw) ≠ []) :
    (parse_intent now raw).intent =
      firstMaxIntent (fun k => intentScoreOf k (normText raw)) ∧
    ∀ k, intentScoreOf k (normText raw) ≤ (patternsOf k).length := by
  constructor
  · have hpi : (parse_intent now raw).intent = pymaxKey (intentScores (normText raw)) := by
      simp [parse_intent]
    have hb1 : intentScoreOf "create" (normText raw) ≤ 3 := List.length_filter_le _ _
    have hb2 : intentScoreOf "read" (normText raw) ≤ 3 := List.length_filter_le _ _
    have hb3 : intentScoreOf "update" (normText raw) ≤ 3 := List.length_filter_le _ _
    have hb4 : intentScoreOf "delete" (normText raw) ≤ 3 := List.length_filter_le _ _
    rw [hpi, scores_as_quad]
    rw [scores_as_quad] at h
    have hfmi : firstMaxIntent (scOf (intentScoreOf "create" (normText raw))
        (intentScoreOf "read" (normText raw)) (intentScoreOf "update" (normText raw))
        (intentScoreOf "delete" (normText raw))) =
        firstMaxIntent (fun k => intentScoreOf k (normText raw)) := by
      simp [firstMaxIntent, maxScore, enumIntents, scOf, List.find?, List.foldl]
    rw [← hfmi]
    exact selectionNat _ _ _ _ hb1 hb2 hb3 hb4 h
  · intro k
    exact List.length_filter_le _ _

theorem c5_witness :
    intentScores (normText "create a meeting") ≠ [] ∧
    ((parse_intent nowA "create a meeting").intent =
      firstMaxIntent (fun k => intentScoreOf k (normText "create a meeting")) ∧
    ∀ k, intentScoreOf k (normText "create a meeting") ≤ (patternsOf k).length) :=
  ⟨by decide, c5_argmax_first_tie_break nowA "create a meeting" (by decide)⟩

/-- C6: the model-assisted `parse_command` degrades to the all-`None`
record — and never raises, being a total function of the call outcome —
whenever (1) the completion call fails with any exception, (2) the
response text contains no `'{'`/`'}'` pair, (3) the extracted slice is
not valid JSON, or (4) an ISO time field fails to decode. -/
theorem c6_failure_fallback (e content : String) :
    parse_command (.apiFailure e) = fallbackCommand ∧
    (hasBracePair content.data = false →
      parse_command (.apiContent content) = fallbackCommand) ∧
    (∀ jstr : List Char, extractedJson (pyStrip content.data) = some jstr →
      jsonLoads (String.mk jstr) = none →
      parse_command (.apiContent content) = fallbackCommand) ∧
    (∀ (jstr : List Char) (obj : PyDict), extractedJson (pyStrip content.data) = some jstr →
      jsonLoads (String.mk jstr) = some obj →
      convertTimeField obj "start_time" = none →
      parse_command (.apiContent content) = fallbackCommand) ∧
    (∀ (jstr : List Char) (obj d1 : PyDict), extractedJson (pyStrip content.data) = some jstr →
      jsonLoads (String.mk jstr) = some obj →
      convertTimeField obj "start_time" = some d1 →
      convertTimeField d1 "end_time" = none →
      parse_command (.apiContent content) = fallbackCommand) := by
  have hred : parse_command (.apiContent content) =
      (match extractedJson (pyStrip content.data) with
      | none => fallbackCommand
      | some jsonStr =>
        match jsonLoads (String.mk jsonStr) with
        | none => fallbackCommand
        | some parsed =>
          match convertTimeField parsed "start_time" with
          | none => fallbackCommand
          | some d1 =>
            match convertTimeField d1 "end_time" with
            | none => fallbackCommand
            | some d2 => d2) := rfl
  refine ⟨rfl, ?_, ?_, ?_, ?_⟩
  · intro hnb
    rw [hred]
    cases he : extractedJson (pyStrip content.data) with
    | none => rfl
    | some t =>
      have := bracePair_pyStrip content.data (extractedJson_bracePair _ t he)
      rw [this] at hnb
      cases hnb
  · intro jstr he hj
    rw [hred]; simp only [he, hj]
  · intro jstr obj he hj hc
    rw [hred]; simp only [he, hj, hc]
  · intro jstr obj d1 he hj hc hd
    rw [hred]; simp only [he, hj, hc, hd]

theorem c6_witness :
    parse_command (.apiFailure "connection timed out") = fallbackCommand ∧
    parse_command (.apiContent "sorry, no structured answer") = fallbackCommand :=
  ⟨(c6_failure_fallback "connection timed out" "sorry, no structured answer").1,
    (c6_failure_fallback "connection timed out" "sorry, no structured answer").2.1 (by decide)⟩

/-- C7: the reasoning-mode heuristic is exactly "late-night hour (0–6)
with a time-of-day keyword, OR a vague relative-time phrase not
suppressed by a specific-weekday phrase, OR a fuzzy-time phrase"; in
particular `"下周一开会"` is `false` at every hour, and `"明天下午开会"`
is `true` at hour 3 but `false` at hour 14. -/
theorem c7_reasoning_heuristic :
    (∀ (text : String) (h : Nat),
      should_enable_reasoning text h = true ↔
        ((h ≤ 6 ∧ ∃ k ∈ timeKeywords, subOccurs k.data text.data = true) ∨
         ((∃ r ∈ relativeTimePhrases, subOccurs r.data text.data = true) ∧
          ¬∃ p ∈ specificDatePhrases, subOccurs p.data text.data = true) ∨
         (∃ v ∈ vagueTimePhrases, subOccurs v.data text.data = true))) ∧
    (∀ h : Nat, should_enable_reasoning "下周一开会" h = false) ∧
    should_enable_reasoning "明天下午开会" 3 = true ∧
    should_enable_reasoning "明天下午开会" 14 = false := by
  refine ⟨?_, ?_, by decide, by decide⟩
  · intro text h
    simp only [should_enable_reasoning, Bool.or_eq_true, Bool.and_eq_true,
      decide_eq_true_eq, List.any_eq_true, Bool.not_eq_true', List.any_eq_false,
      not_exists, not_and]
    exact or_assoc
  · intro h
    have h1 : timeKeywords.any (fun k => subOccurs k.data "下周一开会".data) = false := by decide
    have h2 : specificDatePhrases.any (fun k => subOccurs k.data "下周一开会".data) = true := by
      decide
    have h3 : vagueTimePhrases.any (fun k => subOccurs k.data "下周一开会".data) = false := by
      decide
    simp [should_enable_reasoning, h1, h2, h3]

/-- C8: when the extracted JSON object decodes, carries a convertible (or
absent/falsy) `start_time` and has NO `end_time` key, `parse_command`
returns that object with `start_time` converted and still no `end_time`
key — the model-assisted path passes fields through and invents no
default end time. -/
theorem c8_end_time_passthrough (content : String) (jstr : List Char) (obj d1 : PyDict)
    (he : extractedJson (pyStrip content.data) = some jstr)
    (hj : jsonLoads (String.mk jstr) = some obj)
    (hend : dictGet obj "end_time" = none)
    (hc : convertTimeField obj "start_time" = some d1) :
    parse_command (.apiContent content) = d1 ∧ dictGet d1 "end_time" = none := by
  have hend1 : dictGet d1 "end_time" = none := by
    rw [convertTimeField_get_other obj "start_time" "end_time" (by decide) d1 hc]
    exact hend
  have hce : convertTimeField d1 "end_time" = some d1 := by
    unfold convertTimeField
    rw [hend1]
  have hred : parse_command (.apiContent content) =
      (match extractedJson (pyStrip content.data) with
      | none => fallbackCommand
      | some jsonStr =>
        match jsonLoads (String.mk jsonStr) with
        | none => fallbackCommand
        | some parsed =>
          match convertTimeField parsed "start_time" with
          | none => fallbackCommand
          | some d1 =>
            match convertTimeField d1 "end_time" with
            | none => fallbackCommand
            | some d2 => d2) := rfl
  rw [hred]
  simp only [he, hj, hc, hce]
  exact ⟨trivial, hend1⟩

theorem c8_witness :
    parse_command (.apiContent
        "\x7b\"intent\":\"create\",\"title\":\"Team Sync\",\"start_time\":\"2025-03-02T15:00:00\"\x7d") =
      [("intent", .vstr "create"), ("title", .vstr "Team Sync"),
       ("start_time", .vdt ⟨2025, 3, 2, 15, 0, 0, 0⟩)] ∧
    dictGet [("intent", .vstr "create"), ("title", .vstr "Team Sync"),
       ("start_time", .vdt ⟨2025, 3, 2, 15, 0, 0, 0⟩)] "end_time" = none :=
  c8_end_time_passthrough
    "\x7b\"intent\":\"create\",\"title\":\"Team Sync\",\"start_time\":\"2025-03-02T15:00:00\"\x7d"
    "\x7b\"intent\":\"create\",\"title\":\"Team Sync\",\"start_time\":\"2025-03-02T15:00:00\"\x7d".data
    [("intent", .vstr "create"), ("title", .vstr "Team Sync"),
     ("start_time", .vstr "2025-03-02T15:00:00")]
    [("intent", .vstr "create"), ("title", .vstr "Team Sync"),
     ("start_time", .vdt ⟨2025, 3, 2, 15, 0, 0, 0⟩)]
    (by decide) (by decide) (by decide) (by decide)

/-- C9: the pattern-path confidence always lies in [0, 1]; it is 0 when no
intent matched, and otherwise equals the winning intent's score divided by
that intent's pattern count — strictly positive, with the score never
exceeding the pattern count (each pattern counts at most once). -/
theorem c9_confidence_bounds (now : PyDateTime) (raw : String) :
    0 ≤ (parse_intent now raw).confidence ∧
    (parse_intent now raw).confidence ≤ 1 ∧
    ((parse_intent now raw).intent = none → (parse_intent now raw).confidence = 0) ∧
    (∀ k, (parse_intent now raw).intent = some k →
      (parse_intent now raw).confidence =
        (intentScoreOf k (normText raw) : ℚ) / ((patternsOf k).length : ℚ) ∧
      0 < (parse_intent now raw).confidence ∧
      intentScoreOf k (normText raw) ≤ (patternsOf k).length) := by
  have hconf : (parse_intent now raw).confidence = confOf (intentScores (normText raw)) := by
    simp [parse_intent]
  have hint : (parse_intent now raw).intent = pymaxKey (intentScores (normText raw)) := by
    simp [parse_intent]
  have hb1 : intentScoreOf "create" (normText raw) ≤ 3 := List.length_filter_le _ _
  have hb2 : intentScoreOf "read" (normText raw) ≤ 3 := List.length_filter_le _ _
  have hb3 : intentScoreOf "update" (normText raw) ≤ 3 := List.length_filter_le _ _
  have hb4 : intentScoreOf "delete" (normText raw) ≤ 3 := List.length_filter_le _ _
  rw [hconf, hint, scores_as_quad (normText raw)]
  rcases hk : pymaxKey (scoresOf (intentScoreOf "create" (normText raw))
      (intentScoreOf "read" (normText raw)) (intentScoreOf "update" (normText raw))
      (intentScoreOf "delete" (normText raw))) with _ | k
  · have h0 : confOf (scoresOf (intentScoreOf "create" (normText raw))
        (intentScoreOf "read" (normText raw)) (intentScoreOf "update" (normText raw))
        (intentScoreOf "delete" (normText raw))) = 0 := by
      unfold confOf; rw [hk]
    rw [h0]
    exact ⟨le_refl 0, by norm_num, fun _ => rfl, fun k hkk => absurd hkk (by simp)⟩
  · have hmem : k ∈ enumIntents := by
      have hall := winnerMemNat _ _ _ _ hb1 hb2 hb3 hb4
      rw [hk] at hall
      simpa [List.contains] using hall
    have hwin := winnerNat _ _ _ _ hb1 hb2 hb3 hb4 k hmem hk
    have hlen3 : (patternsOf k).length = 3 := by fin_cases hmem <;> rfl
    have hcv : confOf (scoresOf (intentScoreOf "create" (normText raw))
        (intentScoreOf "read" (normText raw)) (intentScoreOf "update" (normText raw))
        (intentScoreOf "delete" (normText raw))) =
        (pymaxVal (scoresOf (intentScoreOf "create" (normText raw))
          (intentScoreOf "read" (normText raw)) (intentScoreOf "update" (normText raw))
          (intentScoreOf "delete" (normText raw))) : ℚ) / 3 := by
      have hcv0 : confOf (scoresOf (intentScoreOf "create" (normText raw))
          (intentScoreOf "read" (normText raw)) (intentScoreOf "update" (normText raw))
          (intentScoreOf "delete" (normText raw))) =
          (pymaxVal (scoresOf (intentScoreOf "create" (normText raw))
            (intentScoreOf "read" (normText raw)) (intentScoreOf "update" (normText raw))
            (intentScoreOf "delete" (normText raw))) : ℚ) / ((patternsOf k).length : ℚ) := by
        unfold confOf; rw [hk]
      rw [hcv0, hlen3]
      norm_num
    have hple : (1 : ℚ) ≤ (pymaxVal (scoresOf (intentScoreOf "create" (normText raw))
        (intentScoreOf "read" (normText raw)) (intentScoreOf "update" (normText raw))
        (intentScoreOf "delete" (normText raw))) : ℚ) := by exact_mod_cast hwin.2.1
    have hple3 : (pymaxVal (scoresOf (intentScoreOf "create" (normText raw))
        (intentScoreOf "read" (normText raw)) (intentScoreOf "update" (normText raw))
        (intentScoreOf "delete" (normText raw))) : ℚ) ≤ 3 := by exact_mod_cast hwin.2.2
    rw [hcv]
    refine ⟨by positivity, ?_, fun h => absurd h (by simp), ?_⟩
    · rw [div_le_one (by norm_num : (0:ℚ) < 3)]
      exact hple3
    · intro k' hkk
      injection hkk with hkj
      subst hkj
      refine ⟨?_, div_pos (lt_of_lt_of_le zero_lt_one hple) (by norm_num),
        List.length_filter_le _ _⟩
      rw [hwin.1, hlen3]
      have hsc : scOf (intentScoreOf "create" (normText raw)) (intentScoreOf "read" (normText raw))
          (intentScoreOf "update" (normText raw)) (intentScoreOf "delete" (normText raw)) k =
          intentScoreOf k (normText raw) := by
        fin_cases hmem <;> rfl
      rw [hsc]
      norm_num

theorem c9_witness :
    (parse_intent nowA "create a meeting").intent = some "create" ∧
    ((parse_intent nowA "create a meeting").confidence =
        (intentScoreOf "create" (normText "create a meeting") : ℚ) /
          ((patternsOf "create").length : ℚ) ∧
      0 < (parse_intent nowA "create a meeting").confidence ∧
      intentScoreOf "create" (normText "create a meeting") ≤ (patternsOf "create").length) :=
  ⟨by decide,
    (c9_confidence_bounds nowA "create a meeting").2.2.2 "create" (by decide)⟩

/-- C10: the pattern-based parser never resolves a target event: the
result's `target_event` is always `None` (the extractors write only
title, time, location and description), so update/delete resolution falls
back to title search downstream. -/
theorem c10_target_event_none (now : PyDateTime) (raw : String) :
    (parse_intent now raw).target_event = none := by
  simp [parse_intent]
